import Mathlib

/-!
Shallow embedding of the statistical core of thebetcalc: the Poisson
point-probability primitive, the outcome-distribution engine, the rate
estimator, the legacy prediction path, and the most-likely-score search of
the POST handler. Numbers of the source (IEEE doubles) are modelled as exact
reals; the rate estimator, whose arithmetic is integer sums and one division,
is modelled over the rationals so that it stays executable. Fixture records
keep exactly the fields the estimator reads (team identities, completion
status, goal counts); presentation fields (date, venue, league, score
breakdown) are never read by the core and are omitted.
-/

namespace BetCalc

/-- A team as the estimator sees it: its identity. Mirrors the `Team`
interface of src/lib/types.ts restricted to the field the core reads. -/
structure Team where
  id : ℤ
  name : String
  deriving DecidableEq, Repr

/-- The home and away sides of a fixture (the `teams` field). -/
structure FixtureTeams where
  home : Team
  away : Team
  deriving DecidableEq, Repr

/-- Completion status of a fixture; the estimator reads only `short`. -/
structure FixtureStatus where
  short : String
  deriving DecidableEq, Repr

/-- Final goal counts, each possibly absent until the match finishes. -/
structure FixtureGoals where
  home : Option ℤ
  away : Option ℤ
  deriving DecidableEq, Repr

/-- A historical match record, restricted to the fields that
`computeLambdasFromMatches` reads from a `FixtureSummary`. -/
structure FixtureSummary where
  teams : FixtureTeams
  status : FixtureStatus
  goals : FixtureGoals
  deriving DecidableEq, Repr

/-- Venue filter mode of the rate estimator (src/lib/poisson/poisson.ts). -/
inductive LambdaMode where
  | HOME_ONLY
  | AWAY_ONLY
  | ALL
  deriving DecidableEq, Repr

/-- The data carried by the INSUFFICIENT_DATA error message: the fixed
threshold and the actual count that fell short. -/
structure InsufficientData where
  required : ℕ
  got : ℕ
  deriving DecidableEq, Repr

/-- The venue filter of `computeLambdasFromMatches`: HOME_ONLY keeps records
where the team is the home side, AWAY_ONLY where it is the away side, ALL
where it is either side. -/
def venueFiltered (matchList : List FixtureSummary) (teamId : ℤ) :
    LambdaMode → List FixtureSummary
  | LambdaMode.HOME_ONLY => matchList.filter fun m => m.teams.home.id = teamId
  | LambdaMode.AWAY_ONLY => matchList.filter fun m => m.teams.away.id = teamId
  | LambdaMode.ALL =>
      matchList.filter fun m => m.teams.home.id = teamId ∨ m.teams.away.id = teamId

/-- One step of the accumulation loop of `computeLambdasFromMatches`: a
finished record with both goal counts present adds the goals scored by the
target team (home count if the team is the home side, away count otherwise)
and bumps the match count; any other record is skipped. -/
def goalTally (teamId : ℤ) (acc : ℤ × ℕ) (m : FixtureSummary) : ℤ × ℕ :=
  if m.status.short = "FT" then
    match m.goals.home, m.goals.away with
    | some gh, some ga =>
        if m.teams.home.id = teamId then (acc.1 + gh, acc.2 + 1)
        else (acc.1 + ga, acc.2 + 1)
    | _, _ => acc
  else acc

/-- The rate estimator `computeLambdasFromMatches` of src/lib/poisson/poisson.ts:
venue-filter, first sufficiency check, accumulation over finished records with
valid scores, second sufficiency check, then the arithmetic mean. The thrown
INSUFFICIENT_DATA error is modelled as an `Except.error` carrying the
threshold and the actual count from the message text. -/
def computeLambdasFromMatches (matchList : List FixtureSummary) (teamId : ℤ)
    (mode : LambdaMode) : Except InsufficientData ℚ :=
  let filteredMatches := venueFiltered matchList teamId mode
  if filteredMatches.length < 3 then
    Except.error ⟨3, filteredMatches.length⟩
  else
    let tally := filteredMatches.foldl (goalTally teamId) (0, 0)
    if tally.2 < 3 then
      Except.error ⟨3, tally.2⟩
    else
      Except.ok ((tally.1 : ℚ) / (tally.2 : ℚ))

/-- Specification-side predicate: a record is finished with both goal counts
present (the condition of the accumulation loop). -/
def isFinishedValid (m : FixtureSummary) : Bool :=
  decide (m.status.short = "FT") && m.goals.home.isSome && m.goals.away.isSome

/-- Specification-side reading of the goals scored by the target team in one
record: the home count when the team is the home side, the away count
otherwise. -/
def goalsFor (teamId : ℤ) (m : FixtureSummary) : ℤ :=
  if m.teams.home.id = teamId then m.goals.home.getD 0 else m.goals.away.getD 0

/-- Three finished home records of team 7 with home goals 2, 3 and 1: the
concrete case of the spec for the rate estimator. -/
def exampleMatches : List FixtureSummary :=
  [⟨⟨⟨7, "T"⟩, ⟨8, "U"⟩⟩, ⟨"FT"⟩, ⟨some 2, some 0⟩⟩,
   ⟨⟨⟨7, "T"⟩, ⟨9, "V"⟩⟩, ⟨"FT"⟩, ⟨some 3, some 1⟩⟩,
   ⟨⟨⟨7, "T"⟩, ⟨10, "W"⟩⟩, ⟨"FT"⟩, ⟨some 1, some 1⟩⟩]

noncomputable section

/-- The iterative loop of `poissonPmf`: start from exp (-lambda) and multiply
by lambda / i for i = 1..k. -/
def poissonPmfIter (lambda : ℝ) : ℕ → ℝ
  | 0 => Real.exp (-lambda)
  | k + 1 => poissonPmfIter lambda k * (lambda / (k + 1))

/-- The Poisson point-probability primitive `poissonPmf` of
src/lib/poisson/poisson.ts: zero for negative k, the degenerate distribution
for lambda less than or equal to zero, and the iterative product otherwise. -/
def poissonPmf (lambda : ℝ) (k : ℤ) : ℝ :=
  if k < 0 then 0
  else if lambda ≤ 0 then (if k = 0 then 1 else 0)
  else poissonPmfIter lambda k.toNat

/-- Outcome probabilities of a match (the `OutcomeProbs` interface). -/
@[ext]
structure OutcomeProbs where
  pHomeWin : ℝ
  pDraw : ℝ
  pAwayWin : ℝ
  pOver15 : ℝ
  pOver25 : ℝ

/-- One cell of the loop body of `computeOutcomeProbs`: the cell probability
is the product of the two point probabilities; it is added to exactly one
outcome bucket by the trichotomy on (homeGoals, awayGoals), and to the
over-1.5 and over-2.5 buckets when the total clears those thresholds. -/
def outcomeCellStep (lambdaHome lambdaAway : ℝ) (homeGoals : ℕ)
    (acc : OutcomeProbs) (awayGoals : ℕ) : OutcomeProbs :=
  let homeProb := poissonPmf lambdaHome homeGoals
  let awayProb := poissonPmf lambdaAway awayGoals
  let prob := homeProb * awayProb
  let acc1 :=
    if homeGoals > awayGoals then { acc with pHomeWin := acc.pHomeWin + prob }
    else if homeGoals = awayGoals then { acc with pDraw := acc.pDraw + prob }
    else { acc with pAwayWin := acc.pAwayWin + prob }
  let totalGoals := homeGoals + awayGoals
  let acc2 :=
    if ((totalGoals : ℝ) > 1.5) then { acc1 with pOver15 := acc1.pOver15 + prob }
    else acc1
  if ((totalGoals : ℝ) > 2.5) then { acc2 with pOver25 := acc2.pOver25 + prob }
  else acc2

/-- The outcome-distribution engine `computeOutcomeProbs`: iterate over all
score pairs (h, a) with both components between 0 and maxGoals, accumulating
each cell into the outcome and total-goals buckets. -/
def computeOutcomeProbs (lambdaHome lambdaAway : ℝ) (maxGoals : ℕ) :
    OutcomeProbs :=
  (List.range (maxGoals + 1)).foldl
    (fun acc homeGoals =>
      (List.range (maxGoals + 1)).foldl
        (outcomeCellStep lambdaHome lambdaAway homeGoals) acc)
    ⟨0, 0, 0, 0, 0⟩

/-- The legacy alias `poissonProbability` (wraps `poissonPmf`). -/
def poissonProbability (lambda : ℝ) (k : ℤ) : ℝ :=
  poissonPmf lambda k

/-- The legacy prediction result (the `PoissonPrediction` interface,
restricted to the fields the function fills). -/
structure PoissonPrediction where
  homeWin : ℝ
  draw : ℝ
  awayWin : ℝ
  expectedGoals : ℝ × ℝ
  scoreMatrix : List (List ℝ)

/-- The score probability matrix built by `calculatePoissonPrediction`. -/
def scoreMatrixOf (homeExpectedGoals awayExpectedGoals : ℝ) (maxGoals : ℕ) :
    List (List ℝ) :=
  (List.range (maxGoals + 1)).map fun homeGoals : ℕ =>
    (List.range (maxGoals + 1)).map fun awayGoals : ℕ =>
      poissonProbability homeExpectedGoals homeGoals *
        poissonProbability awayExpectedGoals awayGoals

/-- One cell of the second loop of `calculatePoissonPrediction`: read the cell
probability back out of the score matrix and add it to the (homeWin, draw,
awayWin) bucket selected by the trichotomy. -/
def predCellStep (matrix : List (List ℝ)) (homeGoals : ℕ) (acc : ℝ × ℝ × ℝ)
    (awayGoals : ℕ) : ℝ × ℝ × ℝ :=
  let prob := (matrix.getD homeGoals []).getD awayGoals 0
  if homeGoals > awayGoals then (acc.1 + prob, acc.2.1, acc.2.2)
  else if homeGoals = awayGoals then (acc.1, acc.2.1 + prob, acc.2.2)
  else (acc.1, acc.2.1, acc.2.2 + prob)

/-- The legacy path `calculatePoissonPrediction` of src/lib/poisson/poisson.ts:
build the score matrix from the matrix entries, then accumulate the three
outcome buckets from the matrix. -/
def calculatePoissonPrediction (homeExpectedGoals awayExpectedGoals : ℝ)
    (maxGoals : ℕ) : PoissonPrediction :=
  let scoreMatrix := scoreMatrixOf homeExpectedGoals awayExpectedGoals maxGoals
  let acc :=
    (List.range (maxGoals + 1)).foldl
      (fun acc homeGoals =>
        (List.range (maxGoals + 1)).foldl (predCellStep scoreMatrix homeGoals)
          acc)
      (0, 0, 0)
  { homeWin := acc.1
    draw := acc.2.1
    awayWin := acc.2.2
    expectedGoals := (homeExpectedGoals, awayExpectedGoals)
    scoreMatrix := scoreMatrix }

/-- The loop-style factorial helper of src/app/api/poisson/route.ts: one for
n up to 1, otherwise the running product of 2..n. -/
def routeFactorial (n : ℕ) : ℕ :=
  if n ≤ 1 then 1
  else (List.range' 2 (n - 1)).foldl (fun result i => result * i) 1

/-- One cell probability as the POST handler recomputes it for the
most-likely-score search: exp (-lambda) * lambda ^ k / k-factorial for each
side, multiplied. -/
def routeCellProb (lambdaHome lambdaAway : ℝ) (h a : ℕ) : ℝ :=
  (Real.exp (-lambdaHome) * lambdaHome ^ h / (routeFactorial h : ℝ)) *
    (Real.exp (-lambdaAway) * lambdaAway ^ a / (routeFactorial a : ℝ))

/-- The best-so-far record of the most-likely-score search. -/
structure MostLikelyScore where
  home : ℕ
  away : ℕ
  probability : ℝ

/-- One step of the most-likely-score search: replace the best cell seen so
far exactly when the new cell probability strictly exceeds it. -/
def mlsStep (lambdaHome lambdaAway : ℝ) (best : MostLikelyScore)
    (p : ℕ × ℕ) : MostLikelyScore :=
  let prob := routeCellProb lambdaHome lambdaAway p.1 p.2
  if prob > best.probability then ⟨p.1, p.2, prob⟩ else best

/-- The most-likely-score search of the POST handler: iterate h then a over
0..6 starting from the sentinel (0, 0, 0). -/
def findMostLikelyScore (lambdaHome lambdaAway : ℝ) : MostLikelyScore :=
  (List.range 7).foldl
    (fun best h =>
      (List.range 7).foldl
        (fun best a => mlsStep lambdaHome lambdaAway best (h, a)) best)
    ⟨0, 0, 0⟩

/-- The (h, a) iteration order of the search, flattened: all pairs in
lexicographic order. -/
def scorePairs : List (ℕ × ℕ) :=
  (List.range 7).flatMap fun h => (List.range 7).map fun a => (h, a)

/-- Strict lexicographic order on score cells. -/
def lexLt (p q : ℕ × ℕ) : Prop :=
  p.1 < q.1 ∨ (p.1 = q.1 ∧ p.2 < q.2)

instance : DecidableRel lexLt := fun p q => by
  unfold lexLt
  infer_instance

/-- Partial sum of the closed-form Poisson weights, used to state how the
away-win mass varies with the home rate. -/
def partialCdf (n : ℕ) (x : ℝ) : ℝ :=
  ∑ h ∈ Finset.range n, Real.exp (-x) * x ^ h / (Nat.factorial h : ℝ)

end

theorem foldl_goalTally (teamId : ℤ) (l : List FixtureSummary) (a : ℤ) (n : ℕ) :
    l.foldl (goalTally teamId) (a, n) =
      (a + ((l.filter isFinishedValid).map (goalsFor teamId)).sum,
        n + (l.filter isFinishedValid).length) := by
  induction l generalizing a n with
  | nil => simp
  | cons m t ih =>
    have hstep : goalTally teamId (a, n) m =
        if isFinishedValid m then (a + goalsFor teamId m, n + 1) else (a, n) := by
      rcases hgh : m.goals.home with _ | gh <;>
        rcases hga : m.goals.away with _ | ga <;>
        by_cases hft : m.status.short = "FT" <;>
        simp [goalTally, isFinishedValid, goalsFor, hft, hgh, hga] <;>
        by_cases hid : m.teams.home.id = teamId <;>
        simp [hid]
    rw [List.foldl_cons, hstep, List.filter_cons]
    by_cases hfv : isFinishedValid m
    · simp only [hfv, if_true, List.map_cons, List.sum_cons, List.length_cons]
      rw [ih]
      simp only [Prod.mk.injEq]
      constructor
      · ring
      · omega
    · simp only [hfv, if_false]
      rw [ih]
      simp [hfv]

theorem computeLambdasFromMatches_eq (matchList : List FixtureSummary)
    (teamId : ℤ) (mode : LambdaMode) :
    computeLambdasFromMatches matchList teamId mode =
      if (venueFiltered matchList teamId mode).length < 3 then
        Except.error ⟨3, (venueFiltered matchList teamId mode).length⟩
      else if ((venueFiltered matchList teamId mode).filter
          isFinishedValid).length < 3 then
        Except.error
          ⟨3, ((venueFiltered matchList teamId mode).filter
            isFinishedValid).length⟩
      else
        Except.ok
          (((((venueFiltered matchList teamId mode).filter
              isFinishedValid).map (goalsFor teamId)).sum : ℚ) /
            ((((venueFiltered matchList teamId mode).filter
              isFinishedValid).length : ℕ) : ℚ)) := by
  simp only [computeLambdasFromMatches, foldl_goalTally, zero_add]

/-- C2: whenever the venue-filtered subset and its finished-with-valid-scores
subset both have at least 3 records, computeLambdasFromMatches returns the sum
of the goals scored by the target team over the finished-valid records (home
count when the team is the home side, away count otherwise) divided by the
number of finished-valid records. -/
theorem computeLambdasFromMatches_mean (matchList : List FixtureSummary)
    (teamId : ℤ) (mode : LambdaMode)
    (h1 : 3 ≤ (venueFiltered matchList teamId mode).length)
    (h2 : 3 ≤ ((venueFiltered matchList teamId mode).filter
      isFinishedValid).length) :
    computeLambdasFromMatches matchList teamId mode =
      Except.ok
        (((((venueFiltered matchList teamId mode).filter
            isFinishedValid).map (goalsFor teamId)).sum : ℚ) /
          ((((venueFiltered matchList teamId mode).filter
            isFinishedValid).length : ℕ) : ℚ)) := by
  rw [computeLambdasFromMatches_eq, if_neg (by omega), if_neg (by omega)]

/-- Witness for C2: on three finished HOME_ONLY records of team 7 with home
goals 2, 3 and 1, the estimator returns exactly 2. -/
theorem computeLambdasFromMatches_mean_witness :
    3 ≤ (venueFiltered exampleMatches 7 LambdaMode.HOME_ONLY).length ∧
    3 ≤ ((venueFiltered exampleMatches 7 LambdaMode.HOME_ONLY).filter
      isFinishedValid).length ∧
    computeLambdasFromMatches exampleMatches 7 LambdaMode.HOME_ONLY =
      Except.ok 2 := by
  refine ⟨by decide, by decide, ?_⟩
  rw [computeLambdasFromMatches_mean exampleMatches 7 LambdaMode.HOME_ONLY
    (by decide) (by decide)]
  norm_num [exampleMatches, venueFiltered, isFinishedValid, goalsFor,
    List.filter]

/-- C3: the estimator fails with InsufficientData exactly when the
venue-filtered count or the finished-valid count is below 3; the error carries
the threshold 3 and the offending count, the second check can fire when the
first passed, and no error is raised when both checks pass. -/
theorem computeLambdasFromMatches_insufficientData
    (matchList : List FixtureSummary) (teamId : ℤ) (mode : LambdaMode) :
    ((∃ e, computeLambdasFromMatches matchList teamId mode = Except.error e) ↔
      ((venueFiltered matchList teamId mode).length < 3 ∨
        ((venueFiltered matchList teamId mode).filter
          isFinishedValid).length < 3)) ∧
    ((venueFiltered matchList teamId mode).length < 3 →
      computeLambdasFromMatches matchList teamId mode =
        Except.error ⟨3, (venueFiltered matchList teamId mode).length⟩) ∧
    (3 ≤ (venueFiltered matchList teamId mode).length →
      ((venueFiltered matchList teamId mode).filter
        isFinishedValid).length < 3 →
      computeLambdasFromMatches matchList teamId mode =
        Except.error
          ⟨3, ((venueFiltered matchList teamId mode).filter
            isFinishedValid).length⟩) := by
  have hq := computeLambdasFromMatches_eq matchList teamId mode
  by_cases hA : (venueFiltered matchList teamId mode).length < 3
  · rw [if_pos hA] at hq
    exact ⟨⟨fun _ => Or.inl hA, fun _ => ⟨_, hq⟩⟩, fun _ => hq,
      fun hB _ => absurd hB (by omega)⟩
  · rw [if_neg hA] at hq
    by_cases hB : ((venueFiltered matchList teamId mode).filter
        isFinishedValid).length < 3
    · rw [if_pos hB] at hq
      exact ⟨⟨fun _ => Or.inr hB, fun _ => ⟨_, hq⟩⟩, fun h => absurd h hA,
        fun _ _ => hq⟩
    · rw [if_neg hB] at hq
      refine ⟨⟨?_, ?_⟩, fun h => absurd h hA, fun _ h => absurd h hB⟩
      · rintro ⟨e, he⟩
        rw [hq] at he
        exact absurd he (by simp)
      · rintro (h | h)
        · exact absurd h hA
        · exact absurd h hB

theorem poissonPmfIter_eq (lambda : ℝ) (k : ℕ) :
    poissonPmfIter lambda k =
      Real.exp (-lambda) * lambda ^ k / (Nat.factorial k : ℝ) := by
  induction k with
  | zero => simp [poissonPmfIter]
  | succ k ih =>
    rw [poissonPmfIter, ih, pow_succ, Nat.factorial_succ]
    have hk : ((Nat.factorial k : ℝ)) ≠ 0 :=
      Nat.cast_ne_zero.mpr (Nat.factorial_ne_zero k)
    have hk1 : ((k : ℝ) + 1) ≠ 0 := by positivity
    push_cast
    field_simp
    ring

theorem poissonPmf_natCast (lambda : ℝ) (hl : 0 ≤ lambda) (k : ℕ) :
    poissonPmf lambda (k : ℤ) =
      Real.exp (-lambda) * lambda ^ k / (Nat.factorial k : ℝ) := by
  rcases eq_or_lt_of_le hl with hz | hp
  · rw [← hz]
    cases k with
    | zero => simp [poissonPmf]
    | succ k =>
      simp [poissonPmf, zero_pow]
      omega
  · have h1 : ¬ ((k : ℤ) < 0) := not_lt.mpr (Int.natCast_nonneg k)
    have h2 : ¬ (lambda ≤ 0) := not_le.mpr hp
    rw [poissonPmf, if_neg h1, if_neg h2, Int.toNat_ofNat, poissonPmfIter_eq]

theorem poissonPmf_nonneg (lambda : ℝ) (k : ℤ) : 0 ≤ poissonPmf lambda k := by
  unfold poissonPmf
  split_ifs with h1 h2 h3
  · exact le_refl 0
  · exact zero_le_one
  · exact le_refl 0
  · rw [poissonPmfIter_eq]
    have hp : 0 < lambda := not_le.mp h2
    positivity

theorem sum_poissonPmf_le_one (lambda : ℝ) (hl : 0 ≤ lambda) (n : ℕ) :
    ∑ k ∈ Finset.range n, poissonPmf lambda (k : ℤ) ≤ 1 := by
  have hsum : ∑ k ∈ Finset.range n, poissonPmf lambda (k : ℤ) =
      Real.exp (-lambda) *
        ∑ k ∈ Finset.range n, lambda ^ k / (Nat.factorial k : ℝ) := by
    rw [Finset.mul_sum]
    exact Finset.sum_congr rfl fun k _ => by
      rw [poissonPmf_natCast lambda hl k]; ring
  rw [hsum]
  calc Real.exp (-lambda) *
        ∑ k ∈ Finset.range n, lambda ^ k / (Nat.factorial k : ℝ) ≤
      Real.exp (-lambda) * Real.exp lambda :=
        mul_le_mul_of_nonneg_left (Real.sum_le_exp_of_nonneg hl n)
          (Real.exp_pos _).le
    _ = 1 := by rw [← Real.exp_add]; simp

/-- C4: poissonPmf returns 0 for every negative k; for lambda = 0 it returns
1 at k = 0 and 0 at every k at least 1; for positive lambda and natural k it
is the value of the iterative loop that starts from exp (-lambda) and
multiplies by lambda / i for i = 1..k, which equals the closed form
exp (-lambda) * lambda ^ k / k-factorial; and for every nonnegative lambda
the value at k = 0 is exp (-lambda). -/
theorem poissonPmf_spec :
    (∀ (lambda : ℝ) (k : ℤ), k < 0 → poissonPmf lambda k = 0) ∧
    (poissonPmf 0 0 = 1 ∧ ∀ k : ℤ, 1 ≤ k → poissonPmf 0 k = 0) ∧
    (∀ lambda : ℝ, 0 < lambda → ∀ k : ℕ,
      poissonPmf lambda (k : ℤ) = poissonPmfIter lambda k ∧
      poissonPmf lambda (k : ℤ) =
        Real.exp (-lambda) * lambda ^ k / (Nat.factorial k : ℝ)) ∧
    (∀ lambda : ℝ, 0 ≤ lambda → poissonPmf lambda 0 = Real.exp (-lambda)) := by
  refine ⟨?_, ⟨by simp [poissonPmf], ?_⟩, ?_, ?_⟩
  · intro lambda k hk
    simp [poissonPmf, hk]
  · intro k hk
    have h1 : ¬ (k < 0) := by omega
    have h2 : k ≠ 0 := by omega
    simp [poissonPmf, h1, h2]
  · intro lambda hp k
    have h1 : ¬ ((k : ℤ) < 0) := not_lt.mpr (Int.natCast_nonneg k)
    have h2 : ¬ (lambda ≤ 0) := not_le.mpr hp
    constructor
    · rw [poissonPmf, if_neg h1, if_neg h2, Int.toNat_ofNat]
    · exact poissonPmf_natCast lambda hp.le k
  · intro lambda hl
    have h := poissonPmf_natCast lambda hl 0
    simpa using h

/-- C10: for negative lambda the code takes its lambda-nonpositive branch, so
poissonPmf is total there and returns the same degenerate distribution as at
lambda = 0: one at k = 0 and zero at every other integer k. -/
theorem poissonPmf_neg_lambda (lambda : ℝ) (hl : lambda < 0) (k : ℤ) :
    poissonPmf lambda k = if k = 0 then 1 else 0 := by
  unfold poissonPmf
  by_cases hk : k < 0
  · rw [if_pos hk, if_neg (by omega)]
  · rw [if_neg hk, if_pos hl.le]

/-- Witness for C10: at lambda = -1 the value is 1 at k = 0 and 0 at k = 2
and k = -2. -/
theorem poissonPmf_neg_lambda_witness :
    (-1 : ℝ) < 0 ∧ poissonPmf (-1) 0 = 1 ∧ poissonPmf (-1) 2 = 0 ∧
      poissonPmf (-1) (-2) = 0 := by
  have h0 := poissonPmf_neg_lambda (-1) (by norm_num) 0
  have h2 := poissonPmf_neg_lambda (-1) (by norm_num) 2
  have hm := poissonPmf_neg_lambda (-1) (by norm_num) (-2)
  norm_num at h0 h2 hm
  exact ⟨by norm_num, h0, h2, hm⟩

theorem list_range_map_sum (f : ℕ → ℝ) (n : ℕ) :
    ((List.range n).map f).sum = ∑ i ∈ Finset.range n, f i := by
  induction n with
  | zero => simp
  | succ n ih =>
    rw [List.range_succ, List.map_append, List.sum_append,
      Finset.sum_range_succ, ih]
    simp

theorem outcomeCellStep_eq (lh la : ℝ) (h : ℕ) (acc : OutcomeProbs) (a : ℕ) :
    outcomeCellStep lh la h acc a =
      { pHomeWin := acc.pHomeWin +
          (if h > a then poissonPmf lh h * poissonPmf la a else 0)
        pDraw := acc.pDraw +
          (if h = a then poissonPmf lh h * poissonPmf la a else 0)
        pAwayWin := acc.pAwayWin +
          (if h < a then poissonPmf lh h * poissonPmf la a else 0)
        pOver15 := acc.pOver15 +
          (if (((h + a : ℕ) : ℝ) > 1.5) then
            poissonPmf lh h * poissonPmf la a else 0)
        pOver25 := acc.pOver25 +
          (if (((h + a : ℕ) : ℝ) > 2.5) then
            poissonPmf lh h * poissonPmf la a else 0) } := by
  simp only [outcomeCellStep]
  split_ifs <;>
    first
      | (exfalso; omega)
      | (ext <;> simp)

theorem foldl_outcomeCellStep (lh la : ℝ) (h : ℕ) (l : List ℕ)
    (acc : OutcomeProbs) :
    l.foldl (outcomeCellStep lh la h) acc =
      { pHomeWin := acc.pHomeWin +
          ((l.map fun a : ℕ =>
            if h > a then poissonPmf lh h * poissonPmf la a else 0).sum)
        pDraw := acc.pDraw +
          ((l.map fun a : ℕ =>
            if h = a then poissonPmf lh h * poissonPmf la a else 0).sum)
        pAwayWin := acc.pAwayWin +
          ((l.map fun a : ℕ =>
            if h < a then poissonPmf lh h * poissonPmf la a else 0).sum)
        pOver15 := acc.pOver15 +
          ((l.map fun a : ℕ =>
            if (((h + a : ℕ) : ℝ) > 1.5) then
              poissonPmf lh h * poissonPmf la a else 0).sum)
        pOver25 := acc.pOver25 +
          ((l.map fun a : ℕ =>
            if (((h + a : ℕ) : ℝ) > 2.5) then
              poissonPmf lh h * poissonPmf la a else 0).sum) } := by
  induction l generalizing acc with
  | nil => ext <;> simp
  | cons a t ih =>
    rw [List.foldl_cons, outcomeCellStep_eq, ih]
    simp only [List.map_cons, List.sum_cons]
    ext <;> (simp; ring)

theorem foldl_outcomeRows (lh la : ℝ) (m : ℕ) (l : List ℕ)
    (acc : OutcomeProbs) :
    l.foldl
        (fun acc h =>
          (List.range (m + 1)).foldl (outcomeCellStep lh la h) acc) acc =
      { pHomeWin := acc.pHomeWin +
          ((l.map fun h : ℕ => (((List.range (m + 1)).map fun a : ℕ =>
            if h > a then poissonPmf lh h * poissonPmf la a else 0)).sum).sum)
        pDraw := acc.pDraw +
          ((l.map fun h : ℕ => (((List.range (m + 1)).map fun a : ℕ =>
            if h = a then poissonPmf lh h * poissonPmf la a else 0)).sum).sum)
        pAwayWin := acc.pAwayWin +
          ((l.map fun h : ℕ => (((List.range (m + 1)).map fun a : ℕ =>
            if h < a then poissonPmf lh h * poissonPmf la a else 0)).sum).sum)
        pOver15 := acc.pOver15 +
          ((l.map fun h : ℕ => (((List.range (m + 1)).map fun a : ℕ =>
            if (((h + a : ℕ) : ℝ) > 1.5) then
              poissonPmf lh h * poissonPmf la a else 0)).sum).sum)
        pOver25 := acc.pOver25 +
          ((l.map fun h : ℕ => (((List.range (m + 1)).map fun a : ℕ =>
            if (((h + a : ℕ) : ℝ) > 2.5) then
              poissonPmf lh h * poissonPmf la a else 0)).sum).sum) } := by
  induction l generalizing acc with
  | nil => ext <;> simp
  | cons h t ih =>
    rw [List.foldl_cons, foldl_outcomeCellStep, ih]
    simp only [List.map_cons, List.sum_cons]
    ext <;> (simp; ring)

theorem computeOutcomeProbs_eq_sum (lh la : ℝ) (m : ℕ) :
    computeOutcomeProbs lh la m =
      { pHomeWin := ∑ h ∈ Finset.range (m + 1), ∑ a ∈ Finset.range (m + 1),
          if h > a then poissonPmf lh h * poissonPmf la a else 0
        pDraw := ∑ h ∈ Finset.range (m + 1), ∑ a ∈ Finset.range (m + 1),
          if h = a then poissonPmf lh h * poissonPmf la a else 0
        pAwayWin := ∑ h ∈ Finset.range (m + 1), ∑ a ∈ Finset.range (m + 1),
          if h < a then poissonPmf lh h * poissonPmf la a else 0
        pOver15 := ∑ h ∈ Finset.range (m + 1), ∑ a ∈ Finset.range (m + 1),
          if (((h + a : ℕ) : ℝ) > 1.5) then
            poissonPmf lh h * poissonPmf la a else 0
        pOver25 := ∑ h ∈ Finset.range (m + 1), ∑ a ∈ Finset.range (m + 1),
          if (((h + a : ℕ) : ℝ) > 2.5) then
            poissonPmf lh h * poissonPmf la a else 0 } := by
  unfold computeOutcomeProbs
  rw [foldl_outcomeRows]
  ext <;> simp [list_range_map_sum]

/-- C1: for all rates and every bound, computeOutcomeProbs ranges over all
pairs (h, a) with 0 <= h <= maxGoals and 0 <= a <= maxGoals, computes each
cell as poissonPmf lambdaHome h times poissonPmf lambdaAway a, adds it to
pHomeWin when h > a, to pDraw when h = a, to pAwayWin when h < a, and
additionally to pOver15 when h + a > 1.5 and to pOver25 when h + a > 2.5. -/
theorem computeOutcomeProbs_spec (lambdaHome lambdaAway : ℝ) (maxGoals : ℕ) :
    computeOutcomeProbs lambdaHome lambdaAway maxGoals =
      { pHomeWin := ∑ h ∈ Finset.range (maxGoals + 1),
          ∑ a ∈ Finset.range (maxGoals + 1),
          if h > a then poissonPmf lambdaHome h * poissonPmf lambdaAway a
          else 0
        pDraw := ∑ h ∈ Finset.range (maxGoals + 1),
          ∑ a ∈ Finset.range (maxGoals + 1),
          if h = a then poissonPmf lambdaHome h * poissonPmf lambdaAway a
          else 0
        pAwayWin := ∑ h ∈ Finset.range (maxGoals + 1),
          ∑ a ∈ Finset.range (maxGoals + 1),
          if h < a then poissonPmf lambdaHome h * poissonPmf lambdaAway a
          else 0
        pOver15 := ∑ h ∈ Finset.range (maxGoals + 1),
          ∑ a ∈ Finset.range (maxGoals + 1),
          if (((h + a : ℕ) : ℝ) > 1.5) then
            poissonPmf lambdaHome h * poissonPmf lambdaAway a else 0
        pOver25 := ∑ h ∈ Finset.range (maxGoals + 1),
          ∑ a ∈ Finset.range (maxGoals + 1),
          if (((h + a : ℕ) : ℝ) > 2.5) then
            poissonPmf lambdaHome h * poissonPmf lambdaAway a else 0 } :=
  computeOutcomeProbs_eq_sum lambdaHome lambdaAway maxGoals

/-- C6: with equal rates the home-win and away-win masses coincide exactly,
because the cells at (h, a) and (a, h) carry the same value. -/
theorem computeOutcomeProbs_symm (lambda : ℝ) (m : ℕ) (hl : 0 ≤ lambda) :
    (computeOutcomeProbs lambda lambda m).pHomeWin =
      (computeOutcomeProbs lambda lambda m).pAwayWin := by
  simp only [computeOutcomeProbs_eq_sum]
  rw [Finset.sum_comm]
  refine Finset.sum_congr rfl fun h _ => Finset.sum_congr rfl fun a _ => ?_
  split_ifs
  · ring
  · rfl

/-- Witness for C6 at lambda = 1 and maxGoals = 2. -/
theorem computeOutcomeProbs_symm_witness :
    (0 : ℝ) ≤ 1 ∧
      (computeOutcomeProbs 1 1 2).pHomeWin =
        (computeOutcomeProbs 1 1 2).pAwayWin :=
  ⟨by norm_num, computeOutcomeProbs_symm 1 2 (by norm_num)⟩

/-- C5: with nonnegative rates every cell is nonnegative, the three outcome
buckets partition the cells, so their sum is the total mass of the truncated
matrix, and that total is at most 1. -/
theorem computeOutcomeProbs_mass (lambdaHome lambdaAway : ℝ) (maxGoals : ℕ)
    (hh : 0 ≤ lambdaHome) (ha : 0 ≤ lambdaAway) :
    (∀ h a : ℕ, 0 ≤ poissonPmf lambdaHome h * poissonPmf lambdaAway a) ∧
    (computeOutcomeProbs lambdaHome lambdaAway maxGoals).pHomeWin +
        (computeOutcomeProbs lambdaHome lambdaAway maxGoals).pDraw +
        (computeOutcomeProbs lambdaHome lambdaAway maxGoals).pAwayWin =
      (∑ h ∈ Finset.range (maxGoals + 1), ∑ a ∈ Finset.range (maxGoals + 1),
        poissonPmf lambdaHome h * poissonPmf lambdaAway a) ∧
    (∑ h ∈ Finset.range (maxGoals + 1), ∑ a ∈ Finset.range (maxGoals + 1),
      poissonPmf lambdaHome h * poissonPmf lambdaAway a) ≤ 1 := by
  refine ⟨fun h a =>
    mul_nonneg (poissonPmf_nonneg _ _) (poissonPmf_nonneg _ _), ?_, ?_⟩
  · simp only [computeOutcomeProbs_eq_sum]
    rw [← Finset.sum_add_distrib, ← Finset.sum_add_distrib]
    refine Finset.sum_congr rfl fun h _ => ?_
    rw [← Finset.sum_add_distrib, ← Finset.sum_add_distrib]
    refine Finset.sum_congr rfl fun a _ => ?_
    rcases lt_trichotomy h a with hc | hc | hc
    · have h1 : ¬ (h > a) := by omega
      have h2 : h ≠ a := by omega
      simp [h1, h2, hc]
    · have h1 : ¬ (h > a) := by omega
      have h2 : ¬ (h < a) := by omega
      simp [h1, h2, hc]
    · have h1 : h ≠ a := by omega
      have h2 : ¬ (h < a) := by omega
      simp [h1, h2, hc]
  · rw [← Finset.sum_mul_sum]
    exact mul_le_one₀ (sum_poissonPmf_le_one lambdaHome hh _)
      (Finset.sum_nonneg fun k _ => poissonPmf_nonneg _ _)
      (sum_poissonPmf_le_one lambdaAway ha _)

/-- Witness for C5 at rates 1 and 1 with maxGoals = 2. -/
theorem computeOutcomeProbs_mass_witness :
    (∀ h a : ℕ, 0 ≤ poissonPmf 1 h * poissonPmf 1 a) ∧
    (computeOutcomeProbs 1 1 2).pHomeWin + (computeOutcomeProbs 1 1 2).pDraw +
        (computeOutcomeProbs 1 1 2).pAwayWin =
      (∑ h ∈ Finset.range 3, ∑ a ∈ Finset.range 3,
        poissonPmf 1 h * poissonPmf 1 a) ∧
    (∑ h ∈ Finset.range 3, ∑ a ∈ Finset.range 3,
      poissonPmf 1 h * poissonPmf 1 a) ≤ 1 :=
  computeOutcomeProbs_mass 1 1 2 (by norm_num) (by norm_num)

theorem scoreMatrixOf_getD (he ae : ℝ) (m h a : ℕ) (hh : h < m + 1)
    (ha2 : a < m + 1) :
    (((scoreMatrixOf he ae m).getD h []).getD a 0 : ℝ) =
      poissonProbability he h * poissonProbability ae a := by
  unfold scoreMatrixOf
  simp [List.getD_eq_getElem?_getD, List.getElem?_range, hh, ha2]

theorem predCellStep_eq (matrix : List (List ℝ)) (h : ℕ) (acc : ℝ × ℝ × ℝ)
    (a : ℕ) :
    predCellStep matrix h acc a =
      (acc.1 + (if h > a then ((matrix.getD h []).getD a 0 : ℝ) else 0),
       acc.2.1 + (if h = a then ((matrix.getD h []).getD a 0 : ℝ) else 0),
       acc.2.2 + (if h < a then ((matrix.getD h []).getD a 0 : ℝ) else 0)) := by
  simp only [predCellStep]
  split_ifs <;>
    first
      | (exfalso; omega)
      | simp

theorem foldl_predCellStep (matrix : List (List ℝ)) (h : ℕ) (l : List ℕ)
    (acc : ℝ × ℝ × ℝ) :
    l.foldl (predCellStep matrix h) acc =
      (acc.1 + ((l.map fun a : ℕ =>
          if h > a then ((matrix.getD h []).getD a 0 : ℝ) else 0).sum),
       acc.2.1 + ((l.map fun a : ℕ =>
          if h = a then ((matrix.getD h []).getD a 0 : ℝ) else 0).sum),
       acc.2.2 + ((l.map fun a : ℕ =>
          if h < a then ((matrix.getD h []).getD a 0 : ℝ) else 0).sum)) := by
  induction l generalizing acc with
  | nil => simp
  | cons a t ih =>
    rw [List.foldl_cons, predCellStep_eq, ih]
    simp only [List.map_cons, List.sum_cons, Prod.mk.injEq]
    refine ⟨by ring, by ring, by ring⟩

theorem foldl_predRows (matrix : List (List ℝ)) (m : ℕ) (l : List ℕ)
    (acc : ℝ × ℝ × ℝ) :
    l.foldl
        (fun acc h => (List.range (m + 1)).foldl (predCellStep matrix h) acc)
        acc =
      (acc.1 + ((l.map fun h : ℕ => (((List.range (m + 1)).map fun a : ℕ =>
          if h > a then ((matrix.getD h []).getD a 0 : ℝ)
          else 0)).sum).sum),
       acc.2.1 + ((l.map fun h : ℕ => (((List.range (m + 1)).map fun a : ℕ =>
          if h = a then ((matrix.getD h []).getD a 0 : ℝ)
          else 0)).sum).sum),
       acc.2.2 + ((l.map fun h : ℕ => (((List.range (m + 1)).map fun a : ℕ =>
          if h < a then ((matrix.getD h []).getD a 0 : ℝ)
          else 0)).sum).sum)) := by
  induction l generalizing acc with
  | nil => simp
  | cons h t ih =>
    rw [List.foldl_cons, foldl_predCellStep, ih]
    simp only [List.map_cons, List.sum_cons, Prod.mk.injEq]
    refine ⟨by ring, by ring, by ring⟩

/-- C9: the homeWin, draw and awayWin fields of the legacy
calculatePoissonPrediction agree exactly with the pHomeWin, pDraw and
pAwayWin fields of computeOutcomeProbs at the same bound; the two paths
differ only in their default bound. -/
theorem calculatePoissonPrediction_refines (homeExpectedGoals
    awayExpectedGoals : ℝ) (maxGoals : ℕ) :
    (calculatePoissonPrediction homeExpectedGoals awayExpectedGoals
        maxGoals).homeWin =
      (computeOutcomeProbs homeExpectedGoals awayExpectedGoals
        maxGoals).pHomeWin ∧
    (calculatePoissonPrediction homeExpectedGoals awayExpectedGoals
        maxGoals).draw =
      (computeOutcomeProbs homeExpectedGoals awayExpectedGoals
        maxGoals).pDraw ∧
    (calculatePoissonPrediction homeExpectedGoals awayExpectedGoals
        maxGoals).awayWin =
      (computeOutcomeProbs homeExpectedGoals awayExpectedGoals
        maxGoals).pAwayWin := by
  have hpred := foldl_predRows
    (scoreMatrixOf homeExpectedGoals awayExpectedGoals maxGoals) maxGoals
    (List.range (maxGoals + 1)) (0, 0, 0)
  simp only [computeOutcomeProbs_eq_sum]
  simp only [calculatePoissonPrediction, hpred]
  refine ⟨?_, ?_, ?_⟩ <;>
  · simp only [list_range_map_sum, zero_add]
    refine Finset.sum_congr rfl fun h hh => ?_
    refine Finset.sum_congr rfl fun a ha2 => ?_
    rw [Finset.mem_range] at hh ha2
    rw [scoreMatrixOf_getD homeExpectedGoals awayExpectedGoals maxGoals h a
      hh ha2]
    rfl

theorem routeFactorial_eq (n : ℕ) : routeFactorial n = Nat.factorial n := by
  have key : ∀ k : ℕ,
      (List.range' 2 k).foldl (fun result i => result * i) 1 =
        Nat.factorial (k + 1) := by
    intro k
    induction k with
    | zero => simp [Nat.factorial]
    | succ k ih =>
      rw [List.range'_1_concat, List.foldl_append, ih]
      simp [Nat.factorial_succ]
      ring
  unfold routeFactorial
  split_ifs with hn
  · interval_cases n <;> simp [Nat.factorial]
  · rw [key (n - 1)]
    congr 1
    omega

theorem routeCellProb_eq_pmf (lh la : ℝ) (hlh : 0 ≤ lh) (hla : 0 ≤ la)
    (h a : ℕ) :
    routeCellProb lh la h a = poissonPmf lh h * poissonPmf la a := by
  rw [routeCellProb, poissonPmf_natCast lh hlh, poissonPmf_natCast la hla,
    routeFactorial_eq, routeFactorial_eq]

theorem foldl_mlsStep_spec (lh la : ℝ) (l : List (ℕ × ℕ))
    (best : MostLikelyScore) :
    (l.foldl (mlsStep lh la) best = best ∧
      ∀ p ∈ l, routeCellProb lh la p.1 p.2 ≤ best.probability) ∨
    (∃ l1 p l2, l = l1 ++ p :: l2 ∧
      l.foldl (mlsStep lh la) best =
        ⟨p.1, p.2, routeCellProb lh la p.1 p.2⟩ ∧
      best.probability < routeCellProb lh la p.1 p.2 ∧
      (∀ q ∈ l1,
        routeCellProb lh la q.1 q.2 < routeCellProb lh la p.1 p.2) ∧
      (∀ q ∈ l2,
        routeCellProb lh la q.1 q.2 ≤ routeCellProb lh la p.1 p.2)) := by
  induction l generalizing best with
  | nil =>
    left
    exact ⟨rfl, by simp⟩
  | cons p t ih =>
    rw [List.foldl_cons]
    by_cases hp : routeCellProb lh la p.1 p.2 > best.probability
    · have hstep : mlsStep lh la best p =
          ⟨p.1, p.2, routeCellProb lh la p.1 p.2⟩ := by
        simp [mlsStep, hp]
      rw [hstep]
      rcases ih ⟨p.1, p.2, routeCellProb lh la p.1 p.2⟩ with
        ⟨heq, hle⟩ | ⟨l1, q, l2, hsplit, heq, hlt, hl1, hl2⟩
      · right
        exact ⟨[], p, t, rfl, heq, hp, by simp, by simpa using hle⟩
      · right
        refine ⟨p :: l1, q, l2, by rw [hsplit, List.cons_append], heq, ?_, ?_, hl2⟩
        · exact lt_trans hp (by simpa using hlt)
        · intro r hr
          rcases List.mem_cons.mp hr with hc | hc
          · rw [hc]
            simpa using hlt
          · exact hl1 r hc
    · have hstep : mlsStep lh la best p = best := by
        simp [mlsStep, hp]
      rw [hstep]
      rcases ih best with
        ⟨heq, hle⟩ | ⟨l1, q, l2, hsplit, heq, hlt, hl1, hl2⟩
      · left
        refine ⟨heq, ?_⟩
        intro r hr
        rcases List.mem_cons.mp hr with hc | hc
        · rw [hc]
          exact not_lt.mp hp
        · exact hle r hc
      · right
        refine ⟨p :: l1, q, l2, by rw [hsplit, List.cons_append], heq, hlt, ?_, hl2⟩
        intro r hr
        rcases List.mem_cons.mp hr with hc | hc
        · rw [hc]
          exact lt_of_le_of_lt (not_lt.mp hp) hlt
        · exact hl1 r hc

theorem findMostLikelyScore_eq_foldl (lh la : ℝ) :
    findMostLikelyScore lh la = scorePairs.foldl (mlsStep lh la) ⟨0, 0, 0⟩ :=
  rfl

theorem mem_scorePairs (h a : ℕ) : (h, a) ∈ scorePairs ↔ h < 7 ∧ a < 7 := by
  simp [scorePairs]

theorem scorePairs_sorted : scorePairs.Pairwise lexLt := by
  decide

/-- C8: for nonnegative rates, the POST handler's mostLikelyScore search
returns a cell of the 0..6 grid whose probability is the product of the two
Poisson point probabilities, no grid cell has a larger product, and every
cell strictly earlier in (h, a) lexicographic order has a strictly smaller
product, so the first cell attaining the maximum is the one returned. -/
theorem findMostLikelyScore_spec (lambdaHome lambdaAway : ℝ)
    (hlh : 0 ≤ lambdaHome) (hla : 0 ≤ lambdaAway) :
    (findMostLikelyScore lambdaHome lambdaAway).home ≤ 6 ∧
    (findMostLikelyScore lambdaHome lambdaAway).away ≤ 6 ∧
    (findMostLikelyScore lambdaHome lambdaAway).probability =
      poissonPmf lambdaHome (findMostLikelyScore lambdaHome lambdaAway).home *
        poissonPmf lambdaAway
          (findMostLikelyScore lambdaHome lambdaAway).away ∧
    (∀ h a : ℕ, h ≤ 6 → a ≤ 6 →
      poissonPmf lambdaHome h * poissonPmf lambdaAway a ≤
        (findMostLikelyScore lambdaHome lambdaAway).probability) ∧
    (∀ h a : ℕ, h ≤ 6 → a ≤ 6 →
      lexLt (h, a)
        ((findMostLikelyScore lambdaHome lambdaAway).home,
          (findMostLikelyScore lambdaHome lambdaAway).away) →
      poissonPmf lambdaHome h * poissonPmf lambdaAway a <
        (findMostLikelyScore lambdaHome lambdaAway).probability) := by
  have hflat := findMostLikelyScore_eq_foldl lambdaHome lambdaAway
  have h00 : (0 : ℝ) < routeCellProb lambdaHome lambdaAway 0 0 := by
    rw [routeCellProb_eq_pmf lambdaHome lambdaAway hlh hla,
      poissonPmf_natCast lambdaHome hlh, poissonPmf_natCast lambdaAway hla]
    simp [Nat.factorial]
    positivity
  rcases foldl_mlsStep_spec lambdaHome lambdaAway scorePairs ⟨0, 0, 0⟩ with
    ⟨_, hle⟩ | ⟨l1, p, l2, hsplit, heq, _, hl1, hl2⟩
  · exfalso
    have hm : ((0 : ℕ), (0 : ℕ)) ∈ scorePairs := by decide
    have := hle (0, 0) hm
    simp only at this
    exact absurd (lt_of_lt_of_le h00 this) (by norm_num)
  · have hres : findMostLikelyScore lambdaHome lambdaAway =
        ⟨p.1, p.2, routeCellProb lambdaHome lambdaAway p.1 p.2⟩ :=
      hflat.trans heq
    have hpmem : p ∈ scorePairs := by
      rw [hsplit]
      simp
    have hpbound : p.1 < 7 ∧ p.2 < 7 := by
      have := (mem_scorePairs p.1 p.2).mp (by simpa using hpmem)
      exact this
    have hsort := scorePairs_sorted
    rw [hsplit] at hsort
    have hparts := List.pairwise_append.mp hsort
    have hcross : ∀ q ∈ l1, lexLt q p := fun q hq =>
      hparts.2.2 q hq p (by simp)
    have hafter : ∀ q ∈ l2, lexLt p q :=
      (List.pairwise_cons.mp hparts.2.1).1
    have hmem_split : ∀ q : ℕ × ℕ, q ∈ scorePairs →
        q ∈ l1 ∨ q = p ∨ q ∈ l2 := by
      intro q hq
      rw [hsplit] at hq
      rcases List.mem_append.mp hq with hq1 | hq2
      · exact Or.inl hq1
      · rcases List.mem_cons.mp hq2 with hq3 | hq4
        · exact Or.inr (Or.inl hq3)
        · exact Or.inr (Or.inr hq4)
    have hmax : ∀ h a : ℕ, h ≤ 6 → a ≤ 6 →
        routeCellProb lambdaHome lambdaAway h a ≤
          routeCellProb lambdaHome lambdaAway p.1 p.2 := by
      intro h a hh6 ha6
      have hm : (h, a) ∈ scorePairs :=
        (mem_scorePairs h a).mpr ⟨by omega, by omega⟩
      rcases hmem_split (h, a) hm with hc | hc | hc
      · exact (hl1 (h, a) hc).le
      · rw [← hc]
      · exact hl2 (h, a) hc
    have hstrict : ∀ h a : ℕ, h ≤ 6 → a ≤ 6 → lexLt (h, a) (p.1, p.2) →
        routeCellProb lambdaHome lambdaAway h a <
          routeCellProb lambdaHome lambdaAway p.1 p.2 := by
      intro h a hh6 ha6 hlex
      have hm : (h, a) ∈ scorePairs :=
        (mem_scorePairs h a).mpr ⟨by omega, by omega⟩
      rcases hmem_split (h, a) hm with hc | hc | hc
      · exact hl1 (h, a) hc
      · exfalso
        rw [hc] at hlex
        unfold lexLt at hlex
        omega
      · exfalso
        have := hafter (h, a) hc
        unfold lexLt at hlex this
        omega
    rw [hres]
    simp only
    refine ⟨by omega, by omega,
      routeCellProb_eq_pmf lambdaHome lambdaAway hlh hla p.1 p.2,
      ?_, ?_⟩
    · intro h a hh6 ha6
      rw [← routeCellProb_eq_pmf lambdaHome lambdaAway hlh hla h a]
      exact hmax h a hh6 ha6
    · intro h a hh6 ha6 hlex
      rw [← routeCellProb_eq_pmf lambdaHome lambdaAway hlh hla h a]
      exact hstrict h a hh6 ha6 hlex

/-- Witness for C8 at rates 1 and 1. -/
theorem findMostLikelyScore_spec_witness :
    (findMostLikelyScore 1 1).home ≤ 6 ∧
    (findMostLikelyScore 1 1).away ≤ 6 ∧
    (findMostLikelyScore 1 1).probability =
      poissonPmf 1 (findMostLikelyScore 1 1).home *
        poissonPmf 1 (findMostLikelyScore 1 1).away ∧
    (∀ h a : ℕ, h ≤ 6 → a ≤ 6 →
      poissonPmf 1 h * poissonPmf 1 a ≤
        (findMostLikelyScore 1 1).probability) ∧
    (∀ h a : ℕ, h ≤ 6 → a ≤ 6 →
      lexLt (h, a)
        ((findMostLikelyScore 1 1).home, (findMostLikelyScore 1 1).away) →
      poissonPmf 1 h * poissonPmf 1 a <
        (findMostLikelyScore 1 1).probability) :=
  findMostLikelyScore_spec 1 1 (by norm_num) (by norm_num)

theorem hasDerivAt_pmfTerm (h : ℕ) (x : ℝ) :
    HasDerivAt (fun y : ℝ => Real.exp (-y) * y ^ h / (Nat.factorial h : ℝ))
      ((Real.exp (-x) * (-1) * x ^ h +
        Real.exp (-x) * ((h : ℝ) * x ^ (h - 1))) / (Nat.factorial h : ℝ))
      x := by
  have he : HasDerivAt (fun y : ℝ => Real.exp (-y)) (Real.exp (-x) * (-1))
      x := by
    simpa using ((hasDerivAt_id x).neg).exp
  exact (he.mul (hasDerivAt_pow h x)).div_const _

theorem hasDerivAt_partialCdf (k : ℕ) (x : ℝ) :
    HasDerivAt (partialCdf (k + 1))
      (-(Real.exp (-x) * x ^ k / (Nat.factorial k : ℝ))) x := by
  have hfact : ∀ i : ℕ, ((Nat.factorial i : ℝ)) ≠ 0 := fun i =>
    Nat.cast_ne_zero.mpr (Nat.factorial_ne_zero i)
  have hsum : HasDerivAt (fun y : ℝ => ∑ h ∈ Finset.range (k + 1),
      Real.exp (-y) * y ^ h / (Nat.factorial h : ℝ))
      (∑ h ∈ Finset.range (k + 1),
        (Real.exp (-x) * (-1) * x ^ h +
          Real.exp (-x) * ((h : ℝ) * x ^ (h - 1))) / (Nat.factorial h : ℝ))
      x :=
    HasDerivAt.sum fun h _ => hasDerivAt_pmfTerm h x
  have hval : ∑ h ∈ Finset.range (k + 1),
      (Real.exp (-x) * (-1) * x ^ h +
        Real.exp (-x) * ((h : ℝ) * x ^ (h - 1))) / (Nat.factorial h : ℝ) =
      -(Real.exp (-x) * x ^ k / (Nat.factorial k : ℝ)) := by
    rw [Finset.sum_range_succ']
    have hsh : ∀ i ∈ Finset.range k,
        (Real.exp (-x) * (-1) * x ^ (i + 1) +
          Real.exp (-x) * ((((i + 1) : ℕ) : ℝ) * x ^ ((i + 1) - 1))) /
            (Nat.factorial (i + 1) : ℝ) =
        (fun j => Real.exp (-x) * x ^ j / (Nat.factorial j : ℝ)) i -
          (fun j => Real.exp (-x) * x ^ j / (Nat.factorial j : ℝ)) (i + 1) := by
      intro i _
      simp only [Nat.add_sub_cancel]
      rw [Nat.factorial_succ]
      have h1 := hfact i
      have h2 : (((i : ℝ)) + 1) ≠ 0 := by positivity
      push_cast
      field_simp
      ring
    rw [Finset.sum_congr rfl hsh, Finset.sum_range_sub']
    simp [Nat.factorial]
    ring
  rw [hval] at hsum
  have hfun : partialCdf (k + 1) = fun y : ℝ => ∑ h ∈ Finset.range (k + 1),
      Real.exp (-y) * y ^ h / (Nat.factorial h : ℝ) := rfl
  rw [hfun]
  exact hsum

theorem partialCdf_strictAntiOn (k : ℕ) :
    StrictAntiOn (partialCdf (k + 1)) (Set.Ici 0) := by
  apply strictAntiOn_of_deriv_neg (convex_Ici 0)
  · exact (Differentiable.continuous fun x =>
      (hasDerivAt_partialCdf k x).differentiableAt).continuousOn
  · intro x hx
    rw [interior_Ici] at hx
    rw [(hasDerivAt_partialCdf k x).deriv]
    have hxp : (0 : ℝ) < x := hx
    have hp : 0 < Real.exp (-x) * x ^ k / (Nat.factorial k : ℝ) := by
      have := Nat.factorial_pos k
      positivity
    linarith

theorem pAwayWin_eq_partialCdf (lh la : ℝ) (hlh : 0 ≤ lh) (hla : 0 ≤ la)
    (m : ℕ) :
    (computeOutcomeProbs lh la m).pAwayWin =
      ∑ a ∈ Finset.range (m + 1), partialCdf a lh * poissonPmf la (a : ℤ) := by
  simp only [computeOutcomeProbs_eq_sum]
  rw [Finset.sum_comm]
  refine Finset.sum_congr rfl fun a ha2 => ?_
  rw [Finset.mem_range] at ha2
  have hsub : Finset.range a ⊆ Finset.range (m + 1) :=
    Finset.range_subset.mpr (by omega)
  have hzero : ∀ h ∈ Finset.range (m + 1), h ∉ Finset.range a →
      (if h < a then poissonPmf lh (h : ℤ) * poissonPmf la (a : ℤ) else 0) =
        0 := by
    intro h _ hh
    rw [Finset.mem_range] at hh
    rw [if_neg hh]
  rw [← Finset.sum_subset hsub hzero]
  simp only [partialCdf]
  rw [Finset.sum_mul]
  refine Finset.sum_congr rfl fun h hh => ?_
  rw [Finset.mem_range] at hh
  rw [if_pos hh, poissonPmf_natCast lh hlh h]

/-- Counterexample to C7 as stated: at lambdaAway = 1 and maxGoals = 1,
raising lambdaHome from 1 to 2 strictly DECREASES pHomeWin, because the
probability of the only home-win cell (1, 0) of the truncated grid is
proportional to lambdaHome * exp (-lambdaHome), which falls beyond
lambdaHome = 1. -/
theorem pHomeWin_not_strictMono_cex :
    (1 : ℝ) < 2 ∧
      (computeOutcomeProbs 2 1 1).pHomeWin <
        (computeOutcomeProbs 1 1 1).pHomeWin := by
  have hval : ∀ x : ℝ, 0 ≤ x → (computeOutcomeProbs x 1 1).pHomeWin =
      Real.exp (-x) * x * Real.exp (-1) := by
    intro x hx
    have h0 := poissonPmf_natCast x hx 0
    have h1 := poissonPmf_natCast x hx 1
    have g0 := poissonPmf_natCast 1 (by norm_num) 0
    norm_num [Nat.factorial] at h0 h1 g0
    simp only [computeOutcomeProbs_eq_sum]
    rw [show (1 : ℕ) + 1 = 2 from rfl]
    rw [Finset.sum_range_succ, Finset.sum_range_succ, Finset.sum_range_zero,
      Finset.sum_range_succ, Finset.sum_range_succ, Finset.sum_range_zero]
    norm_num [h1, g0]
  rw [hval 1 (by norm_num), hval 2 (by norm_num)]
  have hexp2 : Real.exp (-2 : ℝ) = Real.exp (-1) * Real.exp (-1) := by
    rw [← Real.exp_add]
    norm_num
  have hpos : (0 : ℝ) < Real.exp (-1) := Real.exp_pos _
  have hlt : 2 * Real.exp (-1 : ℝ) < 1 := by
    have h3 : (2 : ℝ) < Real.exp 1 := by
      have h4 := Real.add_one_lt_exp (x := 1) (by norm_num)
      linarith
    have h5 : Real.exp (-1 : ℝ) = (Real.exp 1)⁻¹ := Real.exp_neg 1
    rw [h5, mul_inv_lt_iff₀ (Real.exp_pos 1)]
    linarith
  constructor
  · norm_num
  · rw [hexp2]
    nlinarith [hpos, hlt, mul_pos hpos hpos]

/-- C7 (amended): with lambdaAway positive and maxGoals at least 1 held
fixed, increasing lambdaHome strictly DECREASES pAwayWin over the whole
nonnegative range; the claimed strict increase of pHomeWin does not hold in
general for the truncated matrix (see the counterexample), since raising
lambdaHome also drains mass out of the grid. -/
theorem computeOutcomeProbs_pAwayWin_strictAnti (la : ℝ) (m : ℕ)
    (hla : 0 < la) (hm : 1 ≤ m) (x y : ℝ) (hx : 0 ≤ x) (hxy : x < y) :
    (computeOutcomeProbs y la m).pAwayWin <
      (computeOutcomeProbs x la m).pAwayWin := by
  rw [pAwayWin_eq_partialCdf y la (by linarith) hla.le m,
    pAwayWin_eq_partialCdf x la hx hla.le m]
  apply Finset.sum_lt_sum
  · intro a ha2
    apply mul_le_mul_of_nonneg_right ?_ (poissonPmf_nonneg la (a : ℤ))
    cases a with
    | zero => simp [partialCdf]
    | succ k =>
      exact ((partialCdf_strictAntiOn k) (Set.mem_Ici.mpr hx)
        (Set.mem_Ici.mpr (by linarith)) hxy).le
  · refine ⟨1, Finset.mem_range.mpr (by omega), ?_⟩
    have hpmf : 0 < poissonPmf la ((1 : ℕ) : ℤ) := by
      have h1 := poissonPmf_natCast la hla.le 1
      norm_num [Nat.factorial] at h1
      norm_num [h1]
      positivity
    exact mul_lt_mul_of_pos_right
      ((partialCdf_strictAntiOn 0) (Set.mem_Ici.mpr hx)
        (Set.mem_Ici.mpr (by linarith)) hxy) hpmf

/-- Witness for the amended C7 at lambdaAway = 1, maxGoals = 1, moving
lambdaHome from 0 to 1. -/
theorem computeOutcomeProbs_pAwayWin_strictAnti_witness :
    (0 : ℝ) < 1 ∧ (1 : ℕ) ≤ 1 ∧ (0 : ℝ) ≤ 0 ∧ (0 : ℝ) < 1 ∧
      (computeOutcomeProbs 1 1 1).pAwayWin <
        (computeOutcomeProbs 0 1 1).pAwayWin :=
  ⟨by norm_num, le_refl 1, le_refl 0, by norm_num,
    computeOutcomeProbs_pAwayWin_strictAnti 1 1 (by norm_num) (le_refl 1) 0 1
      (le_refl 0) (by norm_num)⟩

end BetCalc
